import Mathlib

/-
Verification of the course-forge build orchestrator.

Shallow embedding of:
  - src/course_forge/application/use_cases/build_site.py
      (BuildSiteUseCase: _detect_aliases, _process_node, _process_slides_folder)
  - src/course_forge/infrastructure/filesystem/fs_markdown_loader.py
      (FileSystemMarkdownLoader.load)
  - src/course_forge/infrastructure/filesystem/fs_output_writer.py
      (FileSystemOutputWriter.load_checksums / save_checksums / get_checksum_file)
  - src/course_forge/domain/entities/content_node.py (ContentNode.slug)

Modelling conventions:
  - Machine-level collaborators that the orchestrator only calls opaquely are
    abstract function parameters: the md5 hex digest (`md5`), the writer's
    output-existence check (`exs`, indexed by the node's source path), Unicode
    NFKD normalization (`nfkd`), filesystem path resolution (`resolve`) and
    the stdlib JSON codec for flat string maps (`encode`/`decode`).
  - Python dicts are association lists with insertion-order semantics
    (`mget` finds the first binding, `mset` overwrites in place or appends).
  - Python `str` whitespace tests are modelled over the ASCII whitespace
    characters, and the regexes of the source only ever use ASCII classes on
    the relevant inputs.
  - The content tree is a single inductive `CT` whose `dir` constructor holds
    its children as a `CT` built from `fnil`/`fcons` (a one-type encoding of
    the tree/forest pair, so that every function is structurally recursive and
    kernel-reducible).  A node carries the fields `_build_node` gives it:
    source path, name, extension, raw file text (files), local `config.yaml`
    contents if that file exists (directories), discovery path (directories),
    and the `alias_to` back-reference, modelled as the preorder index of the
    canonical directory.
  - The traversal emits a trace of the orchestrator's collaborator calls
    (markdown loads, render calls with the config they receive, writer calls)
    instead of threading abstract renderer output text; the render event also
    records the chapter variable computed for the node and whether the
    slide path was taken.
-/

/-! ## Character classes and small string utilities -/

/-- ASCII whitespace, the characters Python `str.strip`/regex `\s` accept on
ASCII text: space, tab, newline, carriage return, vertical tab, form feed. -/
def isPySpace (c : Char) : Bool :=
  c == ' ' || c == '\t' || c == '\n' || c == '\r' ||
    c == Char.ofNat 11 || c == Char.ofNat 12

def isAsciiDigit (c : Char) : Bool :=
  '0' ≤ c && c ≤ '9'

/-- Value of a run of decimal digits, as Python `int` parses it. -/
def natOfDigits (ds : List Char) : Nat :=
  ds.foldl (fun a c => 10 * a + (c.toNat - 48)) 0

/-- One character of the class `[-_.\s]` from the chapter-number regex. -/
def isSepChar (c : Char) : Bool :=
  c == '-' || c == '_' || c == '.' || isPySpace c

/-- Python `str.strip` (no argument) on a character list. -/
def pyStrip (l : List Char) : List Char :=
  ((l.dropWhile isPySpace).reverse.dropWhile isPySpace).reverse

/-! ## Chapter numbers

`_process_node` runs `re.match(r"^(\d+)\s*[-_.\s]", node.name)` and takes
`int(match.group(1))`.  Because the character class contains `\s`, the
regex matches exactly when the name starts with a nonempty digit run whose
next character is `-`, `_`, `.` or whitespace, and group 1 is the digit
run. -/

def chapterOf (name : String) : Option Nat :=
  let cs := name.data
  let ds := cs.takeWhile isAsciiDigit
  if ds.isEmpty then none
  else
    match cs.dropWhile isAsciiDigit with
    | [] => none
    | c :: _ => if isSepChar c then some (natOfDigits ds) else none

/-! ## Python dicts as association lists -/

abbrev CMap := List (String × String)

/-- `dict.get`: first binding of the key, if any. -/
def mget : CMap → String → Option String
  | [], _ => none
  | (k, v) :: rest, q => if k == q then some v else mget rest q

/-- `dict[k] = v`: overwrite the existing binding in place, else append. -/
def mset : CMap → String → String → CMap
  | [], q, w => [(q, w)]
  | (k, v) :: rest, q, w =>
    if k == q then (q, w) :: rest else (k, v) :: mset rest q w

/-! ## The markdown loader (`FileSystemMarkdownLoader.load`)

The loader reads the raw file text; if it starts with `"---\n"` it splits on
the first two occurrences of `"---"` (Python `content.split("---", 2)`); on
success the middle part is parsed line-by-line into `key: value` metadata and
the rest, left-stripped, becomes the content; if there are fewer than two
occurrences the tuple unpacking raises `ValueError`, which is caught, leaving
the full raw text as content and empty metadata. -/

/-- Split at the first occurrence of `"---"`, scanning left to right. -/
def splitDashes : List Char → Option (List Char × List Char)
  | '-' :: '-' :: '-' :: rest => some ([], rest)
  | c :: rest =>
    match splitDashes rest with
    | some (a, b) => some (c :: a, b)
    | none => none
  | [] => none

/-- `s.split("---", 2)` when it yields three parts, else `none`. -/
def split3 (l : List Char) : Option (List Char × List Char × List Char) :=
  match splitDashes l with
  | none => none
  | some (a, r) =>
    match splitDashes r with
    | none => none
    | some (b, c) => some (a, b, c)

/-- Split at the first `':'` of a line, if any. -/
def splitColon : List Char → Option (List Char × List Char)
  | ':' :: rest => some ([], rest)
  | c :: rest =>
    match splitColon rest with
    | some (a, b) => some (c :: a, b)
    | none => none
  | [] => none

/-- Split into lines at `'\n'` (the front-matter lines of interest). -/
def splitNL : List Char → List Char → List (List Char)
  | [], acc => [acc.reverse]
  | '\n' :: rest, acc => acc.reverse :: splitNL rest []
  | c :: rest, acc => splitNL rest (c :: acc)

/-- Parse the front-matter block: for every line containing `':'`, bind the
stripped key to the stripped value (dict assignment semantics). -/
def parseFM (fm : List Char) : CMap :=
  (splitNL fm []).foldl
    (fun m line =>
      match splitColon line with
      | none => m
      | some (k, v) => mset m (String.mk (pyStrip k)) (String.mk (pyStrip v)))
    []

/-- Does the raw text start with `"---\n"`? -/
def startsFM : List Char → Bool
  | '-' :: '-' :: '-' :: '\n' :: _ => true
  | _ => false

structure MdDoc where
  content : String
  metadata : CMap
deriving DecidableEq

/-- `FileSystemMarkdownLoader.load`, as a function of the raw file text. -/
def fsLoad (raw : String) : MdDoc :=
  if startsFM raw.data then
    match split3 raw.data with
    | some (_, fm, body) => ⟨String.mk (body.dropWhile isPySpace), parseFM fm⟩
    | none => ⟨raw, []⟩
  else ⟨raw, []⟩

/-! ## Configs

`ConfigLoader.load` yields a string-keyed dict; a config is the same
association-list model as a checksum map.  `render_config` is built by
`(global_config or {}).copy()` followed by `render_config.update(current)`. -/

abbrev Config := CMap

/-- `base.copy()` then `.update(over)`: every binding of `over` is assigned
into a copy of `base`, in order. -/
def cupdate (base over : Config) : Config :=
  over.foldl (fun b kv => mset b kv.1 kv.2) base

/-- The render config of `_process_node`: a fresh copy of the global config
with the current (nearest local) config's keys applied on top. -/
def overlay (g : Config) (cc : Option Config) : Config :=
  match cc with
  | none => g
  | some c => cupdate g c

/-- The traversal-time context: `current_config = parent_course_config`,
replaced wholesale by the directory's own config when one exists. -/
def inheritCfg (lc pc : Option Config) : Option Config :=
  match lc with
  | some c => some c
  | none => pc

/-! ## The content tree

One inductive encodes both nodes and child lists: `file`/`dir` are nodes,
`fnil`/`fcons` build the `children` value held by a `dir`. -/

inductive CT where
  | file (src name ext raw : String)
  | dir (src name : String) (localConfig : Option Config) (disc : String)
      (aliasTo : Option Nat) (children : CT)
  | fnil
  | fcons (t : CT) (rest : CT)
deriving DecidableEq

def isFileT : CT → Bool
  | .file _ _ _ _ => true
  | _ => false

def nameT : CT → String
  | .file _ n _ _ => n
  | .dir _ n _ _ _ _ => n
  | _ => ""

def extT : CT → String
  | .file _ _ e _ => e
  | _ => ""

def srcT : CT → String
  | .file s _ _ _ => s
  | .dir s _ _ _ _ _ => s
  | _ => ""

/-- Python `str.lower` on the ASCII names the `slides` test cares about. -/
def lowerStr (s : String) : String :=
  String.mk (s.data.map Char.toLower)

/-- `not child.is_file and child.name.lower() == "slides"`. -/
def isSlidesDir (t : CT) : Bool :=
  !isFileT t && lowerStr (nameT t) == "slides"

/-- `any(c.is_file and c.file_extension == ".md" for c in children)`. -/
def hasMdChild : CT → Bool
  | .fcons t r => (isFileT t && extT t == ".md") || hasMdChild r
  | _ => false

/-- `any(not c.is_file and any(md grandchild) for c in children)` — note that
a child directory named `slides` is not excluded here. -/
def hasSubCourse : CT → Bool
  | .fcons t r =>
    (match t with
     | .dir _ _ _ _ _ cs => hasMdChild cs
     | _ => false) || hasSubCourse r
  | _ => false

/-- First child that is a directory whose lowercased name is `slides`
(the slide pass breaks after the first such child). -/
def findSlides : CT → Option CT
  | .fcons t r => if isSlidesDir t then some t else findSlides r
  | _ => none

/-! ## Traversal events -/

inductive Ev where
  | loadMd (src : String)
  | renderPage (src : String) (chapter : Option Nat) (slide : Bool) (cfg : Config)
  | renderContents (src : String) (cfg : Config)
  | renderSlidesPage (src : String) (cfg : Config)
  | writePage (src : String)
  | writeContents (src : String)
  | writeSlides (src : String)
  | copyFile (src : String)
deriving DecidableEq

/-! ## The slide pipeline (`_process_slides_folder`)

Every markdown child of the slides folder is loaded, preprocessed, rendered
through the slide renderer and written; other file children are copied;
afterwards the consolidated slides page is rendered with the same merged
config and written for the course node.  The checksum maps are not touched. -/

def slideFilesTrace (cfg : Config) : CT → List Ev
  | .fcons t r =>
    (match t with
     | .file s _ ext _ =>
       if ext == ".md" then
         [Ev.loadMd s, Ev.renderPage s none true cfg, Ev.writePage s]
       else [Ev.copyFile s]
     | _ => []) ++ slideFilesTrace cfg r
  | _ => []

def slidesFolderTrace (courseSrc : String) (cfg : Config) (slidesChildren : CT) :
    List Ev :=
  slideFilesTrace cfg slidesChildren ++
    [Ev.renderSlidesPage courseSrc cfg, Ev.writeSlides courseSrc]

/-! ## The recursive traversal (`_process_node`)

`pgo` is `_process_node` together with its recursion over a node's children:
mode `.node isRoot pc` processes one node with `parent_course_config = pc`
(`isRoot` models `node.parent is None`), mode `.forest cc` is the
`for child in node.children` loop with `current_config = cc`, which skips
`slides`-named directories.  The result is the event trace and the updated
`new_checksums` accumulator.  The constructor/mode combinations that cannot
arise for well-formed trees return the empty trace. -/

inductive PMode where
  | node (isRoot : Bool) (pc : Option Config)
  | forest (cc : Option Config)

def pgo (md5 : String → String) (exs : String → Bool) (g : Config)
    (existing : CMap) : CT → PMode → CMap → List Ev × CMap
  | .file src name ext raw, .node _ pc, acc =>
    if ext == ".md" then
      let doc := fsLoad raw
      let h := md5 doc.content
      let acc2 := mset acc src h
      if mget existing src == some h && exs src then
        ([Ev.loadMd src], acc2)
      else
        ([Ev.loadMd src,
          Ev.renderPage src (chapterOf name)
            (mget doc.metadata "type" == some "slide") (overlay g pc),
          Ev.writePage src], acc2)
    else ([Ev.copyFile src], acc)
  | .dir src _ lc _ al ch, .node isRoot pc, acc =>
    let cc := inheritCfg lc pc
    if al.isSome then ([], acc)
    else
      let head :=
        if !isRoot && (hasMdChild ch || hasSubCourse ch) then
          [Ev.renderContents src (overlay g cc), Ev.writeContents src]
        else []
      let sub := pgo md5 exs g existing ch (.forest cc) acc
      let sl :=
        if isRoot then []
        else
          match findSlides ch with
          | some (.dir _ _ _ _ _ scs) =>
            if hasMdChild scs then slidesFolderTrace src (overlay g cc) scs
            else []
          | _ => []
      (head ++ sub.1 ++ sl, sub.2)
  | .fcons t r, .forest cc, acc =>
    if isSlidesDir t then pgo md5 exs g existing r (.forest cc) acc
    else
      let p := pgo md5 exs g existing t (.node false cc) acc
      let q := pgo md5 exs g existing r (.forest cc) p.2
      (p.1 ++ q.1, q.2)
  | .fnil, _, acc => ([], acc)
  | .fcons _ _, .node _ _, acc => ([], acc)
  | .file _ _ _ _, .forest _, acc => ([], acc)
  | .dir _ _ _ _ _ _, .forest _, acc => ([], acc)

/-- `_process_node` on one node. -/
def processNode (md5 : String → String) (exs : String → Bool) (g : Config)
    (t : CT) (isRoot : Bool) (pc : Option Config) (existing acc : CMap) :
    List Ev × CMap :=
  pgo md5 exs g existing t (.node isRoot pc) acc

/-! ## Alias detection (`_detect_aliases`)

The pass collects every directory node (all of which have a discovery path)
in preorder, remembering the source path, the discovery path and
`len(node.slugs_path)` (the number of strict ancestors other than the root).
Nodes are grouped by discovery path; in a group with more than one member a
stable sort by `(depth, 0 if src_path == discovery_path else 1)` picks the
canonical node, and every other member's `alias_to` is set to it. -/

structure ANode where
  src : String
  disc : String
  spLen : Nat
deriving DecidableEq

/-- Preorder collection of directory data; `lvl` is the tree level, so a
directory at level `lvl` has `len(slugs_path) = lvl - 1` (truncated). -/
def collectGo : CT → Nat → List ANode
  | .file _ _ _ _, _ => []
  | .dir s _ _ d _ ch, lvl => ⟨s, d, lvl - 1⟩ :: collectGo ch (lvl + 1)
  | .fnil, _ => []
  | .fcons t r, lvl => collectGo t lvl ++ collectGo r lvl

/-- Number of directory nodes. -/
def ndGo : CT → Nat
  | .file _ _ _ _ => 0
  | .dir _ _ _ _ _ ch => ndGo ch + 1
  | .fnil => 0
  | .fcons t r => ndGo t + ndGo r

/-- The sort key of `canonical_sort_key`: depth first, then origin flag. -/
def akey (a : ANode) : Nat × Nat :=
  (a.spLen, if a.src == a.disc then 0 else 1)

/-- Strict lexicographic comparison of sort keys. -/
def ltKey (x y : Nat × Nat) : Bool :=
  decide (x.1 < y.1) || (x.1 == y.1 && decide (x.2 < y.2))

/-- Pair every collected node with its preorder index. -/
def enumFrom : Nat → List ANode → List (Nat × ANode)
  | _, [] => []
  | n, a :: r => (n, a) :: enumFrom (n + 1) r

/-- The group of a discovery path: all indexed members sharing it, in
collection (preorder) order, as the dict grouping produces it. -/
def groupOf (l : List ANode) (p : String) : List (Nat × ANode) :=
  (enumFrom 0 l).filter (fun ia => ia.2.disc == p)

/-- Head of the stable sort by `akey`: the first member attaining the
minimal key. -/
def pickCanon : List (Nat × ANode) → Option (Nat × ANode)
  | [] => none
  | x :: xs =>
    some (xs.foldl (fun b y => if ltKey (akey y.2) (akey b.2) then y else b) x)

/-- The `alias_to` value detection assigns to the directory at preorder
index `i`: `none` outside multi-member groups and for the canonical member,
otherwise the canonical member's index. -/
def aliasOf (l : List ANode) (i : Nat) : Option Nat :=
  match l.get? i with
  | none => none
  | some a =>
    let G := groupOf l a.disc
    if G.length ≤ 1 then none
    else
      match pickCanon G with
      | none => none
      | some c => if c.1 == i then none else some c.1

/-- Rewrite the tree, giving the directory at preorder index `k` the
`alias_to` value `f k`. -/
def assignGo (f : Nat → Option Nat) : CT → Nat → CT × Nat
  | .file s n e r, k => (.file s n e r, k)
  | .dir s n lc d _ ch, k =>
    let res := assignGo f ch (k + 1)
    (.dir s n lc d (f k) res.1, res.2)
  | .fnil, k => (.fnil, k)
  | .fcons t r, k =>
    let a := assignGo f t k
    let b := assignGo f r a.2
    (.fcons a.1 b.1, b.2)

/-- `_detect_aliases`, as a tree transformation. -/
def detectAliases (t : CT) : CT :=
  (assignGo (aliasOf (collectGo t 0)) t 0).1

/-- The `alias_to` fields of all directories, in preorder. -/
def dirAlGo : CT → List (Option Nat)
  | .file _ _ _ _ => []
  | .dir _ _ _ _ al ch => al :: dirAlGo ch
  | .fnil => []
  | .fcons t r => dirAlGo t ++ dirAlGo r

/-! ## Checksum persistence (`FileSystemOutputWriter`)

The cache file name is derived deterministically from the resolved project
root (`md5(str(Path(source_path).resolve())) + ".json"`); the cache
filesystem is a map from file name to raw contents; `encode`/`decode` stand
for `json.dump`/`json.load` restricted to flat string-to-string maps;
`readable`/`writable` model whether opening the file raises.  `load` returns
the empty map whenever the file is missing, unreadable or unparsable;
`save` swallows write failures, reporting only a warning flag. -/

def getChecksumFile (resolve md5h : String → String) (src : String) : String :=
  md5h (resolve src) ++ ".json"

def fsUpdate (fs : String → Option String) (k v : String) :
    String → Option String :=
  fun q => if q == k then some v else fs q

/-- `save_checksums`; the returned Bool is the "Warning: failed to save"
diagnostic (the function itself never raises). -/
def saveChecksums (resolve md5h : String → String) (encode : CMap → String)
    (fs : String → Option String) (writable : String → Bool)
    (src : String) (m : CMap) : (String → Option String) × Bool :=
  if writable (getChecksumFile resolve md5h src) then
    (fsUpdate fs (getChecksumFile resolve md5h src) (encode m), false)
  else (fs, true)

/-- `load_checksums`. -/
def loadChecksums (resolve md5h : String → String)
    (decode : String → Option CMap) (fs : String → Option String)
    (readable : String → Bool) (src : String) : CMap :=
  match fs (getChecksumFile resolve md5h src) with
  | none => []
  | some s =>
    if readable (getChecksumFile resolve md5h src) then (decode s).getD []
    else []

/-! ## Slugs (`ContentNode.slug`)

NFKD normalization is an abstract parameter; the rest of the pipeline
(ASCII folding, lowercasing, removal of `[^\w\s-]`, collapsing `[-\s]+`
runs to a single hyphen, stripping hyphens) is concrete.  When the pipeline
yields the empty string, the property returns the original name. -/

def isWordChar (c : Char) : Bool :=
  ('a' ≤ c && c ≤ 'z') || ('A' ≤ c && c ≤ 'Z') ||
    ('0' ≤ c && c ≤ '9') || c == '_'

/-- `text.encode("ascii", "ignore")`: drop non-ASCII characters. -/
def asciiDrop (l : List Char) : List Char :=
  l.filter (fun c => decide (c.toNat < 128))

/-- `re.sub(r"[^\w\s-]", "", text)` on ASCII text. -/
def keepWordSpaceDash (l : List Char) : List Char :=
  l.filter (fun c => isWordChar c || isPySpace c || c == '-')

/-- `re.sub(r"[-\s]+", "-", text)`: each maximal run of hyphens and
whitespace becomes one hyphen; the flag says whether we are inside a run. -/
def collapseDashSpace : Bool → List Char → List Char
  | _, [] => []
  | inRun, c :: rest =>
    if isPySpace c || c == '-' then
      if inRun then collapseDashSpace true rest
      else '-' :: collapseDashSpace true rest
    else c :: collapseDashSpace false rest

/-- `text.strip("-")`. -/
def stripDash (l : List Char) : List Char :=
  ((l.dropWhile (fun c => c == '-')).reverse.dropWhile (fun c => c == '-')).reverse

/-- The slugification pipeline of `ContentNode.slug` before the emptiness
fallback. -/
def slugify (nfkd : String → String) (name : String) : String :=
  String.mk
    (stripDash (collapseDashSpace false
      (keepWordSpaceDash ((asciiDrop (nfkd name).data).map Char.toLower))))

/-- `ContentNode.slug`: the slugified name, or the original name when
slugification yields the empty string. -/
def nodeSlug (nfkd : String → String) (name : String) : String :=
  let s := slugify nfkd name
  if s == "" then name else s

/-! ## Claim-side predicates (stated from the specification's words)

These two definitions follow the wording of the claims being checked, not
the source, and exist only to be compared with the source-derived
definitions above. -/

/-- Claim C5's condition for rendering a contents page: "excluding any
child named `slides`, the directory contains markdown files directly or
contains child directories that themselves contain markdown files". -/
def specC5cond : CT → Bool
  | .fcons t r =>
    (if isSlidesDir t then false
     else
       (isFileT t && extT t == ".md") ||
         (match t with
          | .dir _ _ _ _ _ cs => hasMdChild cs
          | _ => false)) || specC5cond r
  | _ => false

/-- Claim C1's statement about alias detection: in every multi-member
discovery-path group, exactly one member keeps `alias_to = none`, the others
point to it, and that canonical member is the shallowest true origin
(source path equal to discovery path) when an origin exists, with depth used
as the criterion only when no member is an origin. -/
def c1ClaimHolds (t : CT) : Prop :=
  ∀ p ∈ (collectGo t 0).map ANode.disc,
    2 ≤ (groupOf (collectGo t 0) p).length →
    ∃ ci ∈ groupOf (collectGo t 0) p,
      (dirAlGo (detectAliases t)).get? ci.1 = some none ∧
      (∀ j ∈ groupOf (collectGo t 0) p, j.1 ≠ ci.1 →
        (dirAlGo (detectAliases t)).get? j.1 = some (some ci.1)) ∧
      ((groupOf (collectGo t 0) p).any (fun j => j.2.src == j.2.disc) = true →
        ci.2.src = ci.2.disc ∧
          ∀ j ∈ groupOf (collectGo t 0) p, j.2.src = j.2.disc →
            ci.2.spLen ≤ j.2.spLen) ∧
      ((groupOf (collectGo t 0) p).any (fun j => j.2.src == j.2.disc) = false →
        ∀ j ∈ groupOf (collectGo t 0) p, ci.2.spLen ≤ j.2.spLen)

/-! ## Concrete trees used as witnesses and counterexamples -/

/-- A course tree whose shallowest member of a discovery-path group is a
redirect (source path differs from discovery path) while a deeper member is
the true origin: `/r/alias` declares `source: ../x/orig`. -/
def exOrig : CT := .dir "/r/x/orig" "orig" none "/r/x/orig" none .fnil

def exXDir : CT := .dir "/r/x" "x" none "/r/x" none (.fcons exOrig .fnil)

def exAlias : CT :=
  .dir "/r/alias" "alias" (some [("source", "../x/orig")]) "/r/x/orig" none .fnil

def exC1 : CT := .dir "/r" "r" none "/r" none (.fcons exAlias (.fcons exXDir .fnil))

/-- Two directories sharing the discovery path `/P` (witness tree for the
amended alias-detection statement). -/
def w1a : CT := .dir "/r/a" "a" none "/P" none .fnil

def w1b : CT := .dir "/r/b" "b" none "/P" none .fnil

def w1 : CT := .dir "/r" "r" none "/r" none (.fcons w1a (.fcons w1b .fnil))

/-- Two courses whose `slides` folders share a discovery path: course `b`'s
slides folder declares `source: ../../a/slides`, so alias detection marks it
as an alias of course `a`'s slides folder. -/
def slFileX : CT := .file "/r/a/slides/1.md" "1" ".md" "s"

def slidesA : CT :=
  .dir "/r/a/slides" "slides" none "/r/a/slides" none (.fcons slFileX .fnil)

def slidesB : CT :=
  .dir "/r/b/slides" "slides" (some [("source", "../../a/slides")])
    "/r/a/slides" none (.fcons slFileX .fnil)

def courseA : CT := .dir "/r/a" "a" none "/r/a" none (.fcons slidesA .fnil)

def courseB : CT := .dir "/r/b" "b" none "/r/b" none (.fcons slidesB .fnil)

def exC4 : CT :=
  .dir "/r" "r" none "/r" none (.fcons courseA (.fcons courseB .fnil))

/-- Course `b`'s subtree after alias detection: the slides folder carries
`alias_to = some 2` (the preorder index of course `a`'s slides folder). -/
def slidesBDet : CT :=
  .dir "/r/b/slides" "slides" (some [("source", "../../a/slides")])
    "/r/a/slides" (some 2) (.fcons slFileX .fnil)

def courseBDet : CT := .dir "/r/b" "b" none "/r/b" none (.fcons slidesBDet .fnil)

/-- A directory whose only child is a `slides` folder containing markdown. -/
def c5file : CT := .file "/r/c/slides/2.md" "2" ".md" "t"

def c5slides : CT :=
  .dir "/r/c/slides" "slides" none "/r/c/slides" none (.fcons c5file .fnil)

def c5dir : CT := .dir "/r/c" "c" none "/r/c" none (.fcons c5slides .fnil)

def exC5 : CT := .dir "/r" "r" none "/r" none (.fcons c5dir .fnil)

/-! # Theorems -/

/-! ## Generic list helpers -/

theorem mem_takeWhile_true (p : Char → Bool) :
    ∀ (l : List Char) (d : Char), d ∈ l.takeWhile p → p d = true := by
  intro l
  induction l with
  | nil => intro d h; simp [List.takeWhile] at h
  | cons c cs ih =>
    intro d h
    rw [List.takeWhile_cons] at h
    by_cases hp : p c
    · simp [hp] at h
      rcases h with h | h
      · subst h; exact hp
      · exact ih d h
    · simp [hp] at h

theorem takeWhile_app_sep (p : Char → Bool) :
    ∀ (ds : List Char) (c : Char) (rest : List Char),
      (∀ d ∈ ds, p d = true) → p c = false →
      (ds ++ c :: rest).takeWhile p = ds ∧
        (ds ++ c :: rest).dropWhile p = c :: rest := by
  intro ds
  induction ds with
  | nil =>
    intro c rest _ hc
    simp [List.takeWhile_cons, List.dropWhile_cons, hc]
  | cons d ds ih =>
    intro c rest hall hc
    have hd : p d = true := hall d (by simp)
    have ihr := ih c rest (fun x hx => hall x (by simp [hx])) hc
    simp [List.takeWhile_cons, List.dropWhile_cons, hd, ihr.1, ihr.2]

/-! ## C7: chapter numbers -/

theorem sep_not_digit (c : Char) (h : isSepChar c = true) :
    isAsciiDigit c = false := by
  simp only [isSepChar, isPySpace, Bool.or_eq_true, beq_iff_eq] at h
  rcases h with ((h | h) | h) | ((((h | h) | h) | h) | h) | h <;> subst h <;>
    decide

/-- C7: for every node name, the derived chapter number is `some k` exactly
when the name decomposes as a nonempty leading run of decimal digits whose
value is `k`, followed by a separator character (`-`, `_`, `.` or
whitespace); names without such a prefix yield no chapter number. -/
theorem c7_chapter_prefix_iff (name : String) (k : Nat) :
    chapterOf name = some k ↔
      ∃ ds c rest, name.data = ds ++ c :: rest ∧ ds ≠ [] ∧
        (∀ d ∈ ds, isAsciiDigit d = true) ∧ isSepChar c = true ∧
        natOfDigits ds = k := by
  constructor
  · intro h
    unfold chapterOf at h
    by_cases he : (name.data.takeWhile isAsciiDigit).isEmpty
    · simp [he] at h
    · simp only [he, if_false, Bool.false_eq_true] at h
      cases hd : name.data.dropWhile isAsciiDigit with
      | nil => rw [hd] at h; simp at h
      | cons c tl =>
        rw [hd] at h
        by_cases hs : isSepChar c
        · simp only [hs, if_true] at h
          refine ⟨name.data.takeWhile isAsciiDigit, c, tl, ?_, ?_, ?_, hs, ?_⟩
          · conv_lhs =>
              rw [← List.takeWhile_append_dropWhile (p := isAsciiDigit)
                    (l := name.data)]
            rw [hd]
          · intro hnil
            exact he (by rw [hnil]; rfl)
          · exact fun d hdm => mem_takeWhile_true isAsciiDigit name.data d hdm
          · exact Option.some.inj h
        · simp [hs] at h
  · rintro ⟨ds, c, rest, hdata, hne, hdig, hsep, hval⟩
    have hnd : isAsciiDigit c = false := sep_not_digit c hsep
    have htw := takeWhile_app_sep isAsciiDigit ds c rest hdig hnd
    unfold chapterOf
    rw [hdata]
    simp only [htw.1, htw.2]
    have hemp : ds.isEmpty = false := by
      cases ds with
      | nil => exact absurd rfl hne
      | cons _ _ => rfl
    simp [hemp, hsep, hval]

theorem c7_chapter_prefix_iff_witness :
    chapterOf "3-functions" = some 3 ∧ chapterOf "functions" = none := by
  constructor
  · exact (c7_chapter_prefix_iff "3-functions" 3).mpr
      ⟨['3'], '-', "functions".data, by decide, by decide, by decide,
        by decide, by decide⟩
  · decide

/-! ## C10: slugs -/

/-- C10: when the slugification pipeline erases the whole name, the `slug`
property returns the original name unchanged rather than the empty string;
for every other name it returns the non-empty slugified form. -/
theorem c10_slug_fallback (nfkd : String → String) (name : String) :
    (slugify nfkd name = "" → nodeSlug nfkd name = name) ∧
    (slugify nfkd name ≠ "" →
      nodeSlug nfkd name = slugify nfkd name ∧ nodeSlug nfkd name ≠ "") := by
  unfold nodeSlug
  constructor
  · intro h
    simp [h]
  · intro h
    have hb : (slugify nfkd name == "") = false :=
      beq_eq_false_iff_ne.mpr h
    simp [hb]
    exact h

theorem c10_slug_fallback_witness :
    nodeSlug (fun s => s) "Course Notes!" = "course-notes" ∧
    nodeSlug (fun s => s) "!!!" = "!!!" := by
  constructor
  · have h := (c10_slug_fallback (fun s => s) "Course Notes!").2 (by decide)
    rw [h.1]
    decide
  · exact (c10_slug_fallback (fun s => s) "!!!").1 (by decide)

/-! ## C8 and C9: checksum persistence -/

/-- C8: saving a checksum map for a project root and then loading from the
same root reads back exactly the saved map, both calls resolving the same
deterministically named cache file; the JSON codec is abstract, assumed only
to round-trip the saved map. -/
theorem c8_checksum_roundtrip (resolve md5h : String → String)
    (encode : CMap → String) (decode : String → Option CMap)
    (fs : String → Option String) (readable writable : String → Bool)
    (src : String) (m : CMap)
    (hcodec : decode (encode m) = some m)
    (hr : readable (getChecksumFile resolve md5h src) = true)
    (hw : writable (getChecksumFile resolve md5h src) = true) :
    loadChecksums resolve md5h decode
      (saveChecksums resolve md5h encode fs writable src m).1 readable src
      = m := by
  unfold loadChecksums saveChecksums fsUpdate
  simp [hw, hr, hcodec]

theorem c8_checksum_roundtrip_witness :
    loadChecksums (fun s => s) (fun s => s) (fun _ => some [("k", "v")])
      (saveChecksums (fun s => s) (fun s => s) (fun _ => "x")
        (fun _ => none) (fun _ => true) "proj" [("k", "v")]).1
      (fun _ => true) "proj" = [("k", "v")] :=
  c8_checksum_roundtrip (fun s => s) (fun s => s) (fun _ => "x")
    (fun _ => some [("k", "v")]) (fun _ => none) (fun _ => true)
    (fun _ => true) "proj" [("k", "v")] rfl rfl rfl

/-- C9: checksum persistence failures are never fatal — a missing,
unreadable or unparsable cache file makes `load_checksums` return the empty
map, and a failed save leaves the cache untouched and reports only a
warning instead of raising. -/
theorem c9_checksum_failures_nonfatal (resolve md5h : String → String)
    (encode : CMap → String) (decode : String → Option CMap)
    (fs : String → Option String) (readable writable : String → Bool)
    (src s : String) (m : CMap) :
    (fs (getChecksumFile resolve md5h src) = none →
      loadChecksums resolve md5h decode fs readable src = []) ∧
    (readable (getChecksumFile resolve md5h src) = false →
      loadChecksums resolve md5h decode fs readable src = []) ∧
    (fs (getChecksumFile resolve md5h src) = some s → decode s = none →
      loadChecksums resolve md5h decode fs readable src = []) ∧
    (writable (getChecksumFile resolve md5h src) = false →
      saveChecksums resolve md5h encode fs writable src m = (fs, true)) := by
  refine ⟨?_, ?_, ?_, ?_⟩
  · intro h
    unfold loadChecksums
    simp [h]
  · intro h
    unfold loadChecksums
    cases hf : fs (getChecksumFile resolve md5h src) <;> simp [h]
  · intro hf hd
    unfold loadChecksums
    rw [hf]
    cases hr : readable (getChecksumFile resolve md5h src) <;> simp [hd]
  · intro h
    unfold saveChecksums
    simp [h]

theorem c9_checksum_failures_nonfatal_witness :
    loadChecksums (fun s => s) (fun s => s) (fun _ => none) (fun _ => none)
      (fun _ => true) "p" = [] ∧
    loadChecksums (fun s => s) (fun s => s) (fun _ => none)
      (fun _ => some "junk") (fun _ => false) "p" = [] ∧
    loadChecksums (fun s => s) (fun s => s) (fun _ => none)
      (fun _ => some "junk") (fun _ => true) "p" = [] ∧
    saveChecksums (fun s => s) (fun s => s) (fun _ => "x") (fun _ => none)
      (fun _ => false) "p" [("a", "b")] = (fun _ => none, true) := by
  refine ⟨?_, ?_, ?_, ?_⟩
  · exact (c9_checksum_failures_nonfatal (fun s => s) (fun s => s)
      (fun _ => "x") (fun _ => none) (fun _ => none) (fun _ => true)
      (fun _ => true) "p" "junk" [("a", "b")]).1 rfl
  · exact (c9_checksum_failures_nonfatal (fun s => s) (fun s => s)
      (fun _ => "x") (fun _ => none) (fun _ => some "junk") (fun _ => false)
      (fun _ => true) "p" "junk" [("a", "b")]).2.1 rfl
  · exact (c9_checksum_failures_nonfatal (fun s => s) (fun s => s)
      (fun _ => "x") (fun _ => none) (fun _ => some "junk") (fun _ => true)
      (fun _ => true) "p" "junk" [("a", "b")]).2.2.1 rfl rfl
  · exact (c9_checksum_failures_nonfatal (fun s => s) (fun s => s)
      (fun _ => "x") (fun _ => none) (fun _ => none) (fun _ => true)
      (fun _ => false) "p" "junk" [("a", "b")]).2.2.2 rfl

/-! ## C2 and C3: incremental skip and checksum recording -/

/-- C2: a markdown file node is skipped (its trace is only the load) exactly
when the computed content hash equals the checksum previously recorded for
its source path and the writer reports the output as existing; otherwise it
is rendered and written; and in both cases the new checksum for the source
path is recorded in the new checksum map. -/
theorem c2_skip_iff_checksum_and_output (md5 : String → String)
    (exs : String → Bool) (g : Config) (src name raw : String) (isRoot : Bool)
    (pc : Option Config) (existing acc : CMap) :
    (processNode md5 exs g (.file src name ".md" raw) isRoot pc existing
        acc).2 = mset acc src (md5 (fsLoad raw).content) ∧
    ((processNode md5 exs g (.file src name ".md" raw) isRoot pc existing
        acc).1 = [Ev.loadMd src] ↔
      (mget existing src = some (md5 (fsLoad raw).content) ∧
        exs src = true)) ∧
    (¬ (mget existing src = some (md5 (fsLoad raw).content) ∧
        exs src = true) →
      (processNode md5 exs g (.file src name ".md" raw) isRoot pc existing
          acc).1 =
        [Ev.loadMd src,
         Ev.renderPage src (chapterOf name)
           (mget (fsLoad raw).metadata "type" == some "slide") (overlay g pc),
         Ev.writePage src]) := by
  have hiff : ((mget existing src == some (md5 (fsLoad raw).content) &&
      exs src) = true) ↔
      (mget existing src = some (md5 (fsLoad raw).content) ∧
        exs src = true) := by
    simp [Bool.and_eq_true]
  refine ⟨by simp [processNode, pgo, apply_ite], ?_, ?_⟩
  · by_cases hc : mget existing src = some (md5 (fsLoad raw).content) ∧
      exs src = true
    · have hb := hiff.mpr hc
      simp [processNode, pgo, hb, hc]
    · have hb : (mget existing src == some (md5 (fsLoad raw).content) &&
          exs src) = false := by
        cases hbv : (mget existing src == some (md5 (fsLoad raw).content) &&
            exs src)
        · rfl
        · exact absurd (hiff.mp hbv) hc
      simp [processNode, pgo, hb, hc]
  · intro hc
    have hb : (mget existing src == some (md5 (fsLoad raw).content) &&
        exs src) = false := by
      cases hbv : (mget existing src == some (md5 (fsLoad raw).content) &&
          exs src)
      · rfl
      · exact absurd (hiff.mp hbv) hc
    simp [processNode, pgo, hb]

theorem c2_skip_iff_checksum_and_output_witness :
    (processNode (fun s => s) (fun _ => true) [] (.file "/a.md" "a" ".md" "x")
        false none [("/a.md", "x")] []).1 = [Ev.loadMd "/a.md"] ∧
    (processNode (fun s => s) (fun _ => false) [] (.file "/a.md" "a" ".md" "x")
        false none [("/a.md", "x")] []).1 =
      [Ev.loadMd "/a.md",
       Ev.renderPage "/a.md" (chapterOf "a")
         (mget (fsLoad "x").metadata "type" == some "slide") (overlay [] none),
       Ev.writePage "/a.md"] := by
  constructor
  · exact (c2_skip_iff_checksum_and_output (fun s => s) (fun _ => true) []
      "/a.md" "a" "x" false none [("/a.md", "x")] []).2.1.mpr
      ⟨by decide, rfl⟩
  · exact (c2_skip_iff_checksum_and_output (fun s => s) (fun _ => false) []
      "/a.md" "a" "x" false none [("/a.md", "x")] []).2.2
      (by intro h; exact absurd h.2 (by decide))

/-- C3 (amended): for a markdown file node, the checksum recorded under the
node's source path is the digest of the loader's content — the raw text
with the front-matter block stripped — so the recorded value depends only
on that stripped content, not on the full raw bytes. -/
theorem c3_checksum_of_loader_content (md5 : String → String)
    (exs : String → Bool) (g : Config) (src name raw raw2 : String)
    (isRoot : Bool) (pc : Option Config) (existing acc : CMap) :
    (processNode md5 exs g (.file src name ".md" raw) isRoot pc existing
        acc).2 = mset acc src (md5 (fsLoad raw).content) ∧
    ((fsLoad raw).content = (fsLoad raw2).content →
      (processNode md5 exs g (.file src name ".md" raw) isRoot pc existing
          acc).2 =
        (processNode md5 exs g (.file src name ".md" raw2) isRoot pc existing
          acc).2) := by
  refine ⟨by simp [processNode, pgo, apply_ite], ?_⟩
  intro h
  simp [processNode, pgo, apply_ite, h]

theorem c3_checksum_of_loader_content_witness :
    (processNode (fun s => s) (fun _ => true) []
        (.file "/a.md" "a" ".md" "---\ntitle: A\n---\nbody") false none []
        []).2 =
      mset [] "/a.md"
        ((fun s => s) (fsLoad "---\ntitle: A\n---\nbody").content) ∧
    (processNode (fun s => s) (fun _ => true) []
        (.file "/a.md" "a" ".md" "---\ntitle: A\n---\nbody") false none []
        []).2 =
      (processNode (fun s => s) (fun _ => true) []
        (.file "/a.md" "a" ".md" "---\ntitle: B\n---\nbody") false none []
        []).2 := by
  constructor
  · exact (c3_checksum_of_loader_content (fun s => s) (fun _ => true) []
      "/a.md" "a" "---\ntitle: A\n---\nbody" "x" false none [] []).1
  · exact (c3_checksum_of_loader_content (fun s => s) (fun _ => true) []
      "/a.md" "a" "---\ntitle: A\n---\nbody" "---\ntitle: B\n---\nbody"
      false none [] []).2 (by decide)

/-- C3 counterexample: two raw file texts that differ only inside the
front-matter block load to identical content, hence record identical
checksums (here with a concrete digest stand-in), refuting "any change to
the file's bytes changes the recorded checksum". -/
theorem c3_frontmatter_change_same_checksum :
    ("---\ntitle: A\n---\nbody" : String) ≠ "---\ntitle: B\n---\nbody" ∧
    (fsLoad "---\ntitle: A\n---\nbody").content =
      (fsLoad "---\ntitle: B\n---\nbody").content ∧
    (fsLoad "---\ntitle: A\n---\nbody").content = "body" ∧
    (processNode (fun s => s) (fun _ => true) []
        (.file "/a.md" "a" ".md" "---\ntitle: A\n---\nbody") false none []
        []).2 =
      (processNode (fun s => s) (fun _ => true) []
        (.file "/a.md" "a" ".md" "---\ntitle: B\n---\nbody") false none []
        []).2 := by
  refine ⟨by decide, by decide, by decide, by decide⟩

/-! ## C4: aliased nodes -/

/-- C4 (amended): the recursive processing call on a node whose `alias_to`
is set returns immediately — it emits no load, render or writer call for
the node or its subtree and leaves the checksum accumulator untouched.
(The separate slide pass of the node's parent is not covered by this: it
does not consult `alias_to`; see the counterexample.) -/
theorem c4_alias_node_emits_nothing (md5 : String → String)
    (exs : String → Bool) (g : Config) (src name : String)
    (lc : Option Config) (disc : String) (k : Nat) (ch : CT) (isRoot : Bool)
    (pc : Option Config) (existing acc : CMap) :
    processNode md5 exs g (.dir src name lc disc (some k) ch) isRoot pc
      existing acc = ([], acc) := by
  simp [processNode, pgo]

/-- C4 counterexample: after alias detection on `exC4`, course `b`'s
`slides` folder is an alias of course `a`'s (`alias_to = some 2`), yet the
traversal of course `b` still loads, renders and writes the markdown file
inside the aliased slides subtree, because the slide pass never checks
`alias_to`. -/
theorem c4_aliased_slides_still_processed :
    detectAliases exC4 =
      .dir "/r" "r" none "/r" none (.fcons courseA (.fcons courseBDet .fnil)) ∧
    (processNode (fun s => s) (fun _ => false) [] courseBDet false none []
        []).1 =
      [Ev.renderContents "/r/b" [], Ev.writeContents "/r/b",
       Ev.loadMd "/r/a/slides/1.md",
       Ev.renderPage "/r/a/slides/1.md" none true [],
       Ev.writePage "/r/a/slides/1.md",
       Ev.renderSlidesPage "/r/b" [], Ev.writeSlides "/r/b"] := by
  refine ⟨by decide, by decide⟩

/-! ## C5: the contents-page condition -/

/-- C5 (amended): a non-aliased directory node renders and writes a contents
page exactly when it is not the tree root and it has markdown file children
directly or has a child directory — a `slides`-named child included — with
markdown file children; the rest of its trace is the recursion over its
non-`slides` children followed by the slide pass. -/
theorem c5_contents_condition_amended (md5 : String → String)
    (exs : String → Bool) (g : Config) (src name : String)
    (lc : Option Config) (disc : String) (ch : CT) (isRoot : Bool)
    (pc : Option Config) (existing acc : CMap) :
    processNode md5 exs g (.dir src name lc disc none ch) isRoot pc existing
        acc =
      ((if !isRoot && (hasMdChild ch || hasSubCourse ch) then
          [Ev.renderContents src (overlay g (inheritCfg lc pc)),
           Ev.writeContents src]
        else []) ++
        (pgo md5 exs g existing ch (.forest (inheritCfg lc pc)) acc).1 ++
        (if isRoot then []
         else
           match findSlides ch with
           | some (.dir _ _ _ _ _ scs) =>
             if hasMdChild scs then
               slidesFolderTrace src (overlay g (inheritCfg lc pc)) scs
             else []
           | _ => []),
       (pgo md5 exs g existing ch (.forest (inheritCfg lc pc)) acc).2) := by
  simp [processNode, pgo]

/-- C5 counterexample: directory `/r/c` has no content other than a `slides`
child with a markdown file, so the claim's condition (which excludes
`slides`-named children) is false, yet the traversal writes a contents page
for `/r/c`. -/
theorem c5_claim_false_for_slides_only_dir :
    specC5cond (.fcons c5slides .fnil) = false ∧
    detectAliases exC5 = exC5 ∧
    Ev.writeContents "/r/c" ∈
      (processNode (fun s => s) (fun _ => false) [] exC5 true none [] []).1 := by
  refine ⟨by decide, by decide, by decide⟩

/-! ## C6: config replacement and render-time overlay -/

/-- C6: a directory's own local config fully replaces the inherited config
context (the result of processing such a directory is independent of the
inherited context); a directory's contents page is rendered with a copy of
the global config overlaid with the nearest local config (its own if
present, else the inherited one); and every page render for a markdown file
uses the global config overlaid with the inherited context. -/
theorem c6_config_replacement_and_overlay (md5 : String → String)
    (exs : String → Bool) (g : Config) :
    (∀ (src name : String) (c : Config) (disc : String) (al : Option Nat)
        (ch : CT) (pc pc' : Option Config) (isRoot : Bool)
        (existing acc : CMap),
      processNode md5 exs g (.dir src name (some c) disc al ch) isRoot pc
          existing acc =
        processNode md5 exs g (.dir src name (some c) disc al ch) isRoot pc'
          existing acc) ∧
    (∀ (src name : String) (lc : Option Config) (disc : String) (ch : CT)
        (pc : Option Config) (existing acc : CMap),
      (hasMdChild ch || hasSubCourse ch) = true →
      (processNode md5 exs g (.dir src name lc disc none ch) false pc
          existing acc).1.head? =
        some (Ev.renderContents src (overlay g (inheritCfg lc pc)))) ∧
    (∀ (src name raw : String) (isRoot : Bool) (pc : Option Config)
        (existing acc : CMap) (ch0 : Option Nat) (sl : Bool) (cfg : Config),
      Ev.renderPage src ch0 sl cfg ∈
        (processNode md5 exs g (.file src name ".md" raw) isRoot pc existing
          acc).1 →
      cfg = overlay g pc) := by
  refine ⟨fun _ _ _ _ _ _ _ _ _ _ _ => rfl, ?_, ?_⟩
  · intro src name lc disc ch pc existing acc h
    simp [processNode, pgo, h]
  · intro src name raw isRoot pc existing acc ch0 sl cfg h
    by_cases hc : (mget existing src == some (md5 (fsLoad raw).content) &&
        exs src) = true
    · simp [processNode, pgo, hc] at h
    · have hb : (mget existing src == some (md5 (fsLoad raw).content) &&
          exs src) = false := by
        cases hbv : (mget existing src == some (md5 (fsLoad raw).content) &&
            exs src)
        · rfl
        · exact absurd hbv hc
      simp [processNode, pgo, hb] at h
      exact h.2.2

theorem c6_config_replacement_and_overlay_witness :
    (processNode (fun s => s) (fun _ => false) [("x", "1")]
        (.dir "/d" "d" (some [("y", "2")]) "/d" none .fnil) false
        (some [("z", "3")]) [] [] =
      processNode (fun s => s) (fun _ => false) [("x", "1")]
        (.dir "/d" "d" (some [("y", "2")]) "/d" none .fnil) false none []
        []) ∧
    ((processNode (fun s => s) (fun _ => false) [("x", "1")]
        (.dir "/d" "d" (some [("y", "2")]) "/d" none
          (.fcons (.file "/d/1-a.md" "1-a" ".md" "hello") .fnil)) false none
        [] []).1.head? =
      some (Ev.renderContents "/d"
        (overlay [("x", "1")] (inheritCfg (some [("y", "2")]) none)))) ∧
    (([("x", "1"), ("y", "2")] : Config) =
      overlay [("x", "1")] (some [("y", "2")])) := by
  refine ⟨?_, ?_, ?_⟩
  · exact (c6_config_replacement_and_overlay (fun s => s) (fun _ => false)
      [("x", "1")]).1 "/d" "d" [("y", "2")] "/d" none .fnil
      (some [("z", "3")]) none false [] []
  · exact (c6_config_replacement_and_overlay (fun s => s) (fun _ => false)
      [("x", "1")]).2.1 "/d" "d" (some [("y", "2")]) "/d"
      (.fcons (.file "/d/1-a.md" "1-a" ".md" "hello") .fnil) none [] []
      (by decide)
  · exact (c6_config_replacement_and_overlay (fun s => s) (fun _ => false)
      [("x", "1")]).2.2 "/d/1-a.md" "1-a" "hello" false
      (some [("y", "2")]) [] [] (some 1) false [("x", "1"), ("y", "2")]
      (by decide)

/-! ## C1 helpers -/

theorem ltKey_iff (x y : Nat × Nat) :
    ltKey x y = true ↔ (x.1 < y.1 ∨ (x.1 = y.1 ∧ x.2 < y.2)) := by
  simp [ltKey, Bool.or_eq_true, Bool.and_eq_true, decide_eq_true_eq,
    beq_iff_eq]

theorem ltKey_false_iff (x y : Nat × Nat) :
    ltKey x y = false ↔ ¬ (x.1 < y.1 ∨ (x.1 = y.1 ∧ x.2 < y.2)) := by
  rw [← ltKey_iff]
  cases h : ltKey x y <;> simp

theorem foldlMin_spec (xs : List (Nat × ANode)) :
    ∀ (x : Nat × ANode),
      (xs.foldl (fun b y => if ltKey (akey y.2) (akey b.2) then y else b) x
          = x ∨
        xs.foldl (fun b y => if ltKey (akey y.2) (akey b.2) then y else b) x
          ∈ xs) ∧
      (∀ y, (y = x ∨ y ∈ xs) →
        ltKey (akey y.2)
          (akey (xs.foldl
            (fun b y => if ltKey (akey y.2) (akey b.2) then y else b) x).2)
          = false) := by
  induction xs with
  | nil =>
    intro x
    refine ⟨Or.inl rfl, ?_⟩
    intro y hy
    rcases hy with rfl | hy
    · simp only [List.foldl_nil]
      rw [ltKey_false_iff]
      omega
    · simp at hy
  | cons z zs ih =>
    intro x
    have step : (z :: zs).foldl
        (fun b y => if ltKey (akey y.2) (akey b.2) then y else b) x
        = zs.foldl (fun b y => if ltKey (akey y.2) (akey b.2) then y else b)
            (if ltKey (akey z.2) (akey x.2) then z else x) := by
      simp [List.foldl_cons]
    have ihz := ih (if ltKey (akey z.2) (akey x.2) then z else x)
    constructor
    · rw [step]
      rcases ihz.1 with h | h
      · rw [h]
        by_cases hlt : ltKey (akey z.2) (akey x.2) = true
        · simp [hlt]
        · simp [hlt]
      · exact Or.inr (List.mem_cons_of_mem z h)
    · intro y hy
      rw [step]
      by_cases hlt : ltKey (akey z.2) (akey x.2) = true
      · rcases hy with rfl | hy
        · -- y = x, the kept element is z
          have hz := ihz.2 z (Or.inl (by simp [hlt]))
          rw [ltKey_false_iff] at hz ⊢
          rw [ltKey_iff] at hlt
          omega
        · rcases List.mem_cons.mp hy with rfl | hy
          · exact ihz.2 y (Or.inl (by simp [hlt]))
          · exact ihz.2 y (Or.inr hy)
      · rcases hy with rfl | hy
        · exact ihz.2 y (Or.inl (by simp [hlt]))
        · rcases List.mem_cons.mp hy with rfl | hy
          · -- y = z, the kept element is x
            have hx := ihz.2 x (Or.inl (by simp [hlt]))
            rw [ltKey_false_iff] at hx ⊢
            have hzx : ltKey (akey y.2) (akey x.2) = false := by
              cases hv : ltKey (akey y.2) (akey x.2)
              · rfl
              · exact absurd hv hlt
            rw [ltKey_false_iff] at hzx
            omega
          · exact ihz.2 y (Or.inr hy)

theorem pickCanon_spec (L : List (Nat × ANode)) (c : Nat × ANode)
    (h : pickCanon L = some c) :
    c ∈ L ∧ ∀ y ∈ L, ltKey (akey y.2) (akey c.2) = false := by
  cases L with
  | nil => simp [pickCanon] at h
  | cons x xs =>
    have hf := foldlMin_spec xs x
    have hc : xs.foldl (fun b y => if ltKey (akey y.2) (akey b.2) then y else b) x
        = c := Option.some.inj (by simpa [pickCanon] using h)
    constructor
    · rcases hf.1 with h1 | h1
      · rw [← hc, h1]; exact List.mem_cons_self x xs
      · rw [← hc]; exact List.mem_cons_of_mem x h1
    · intro y hy
      rw [← hc]
      rcases List.mem_cons.mp hy with rfl | hy
      · exact hf.2 y (Or.inl rfl)
      · exact hf.2 y (Or.inr hy)

theorem mem_enumFrom : ∀ (l : List ANode) (n i : Nat) (a : ANode),
    (i, a) ∈ enumFrom n l → n ≤ i ∧ l.get? (i - n) = some a := by
  intro l
  induction l with
  | nil => intro n i a h; simp [enumFrom] at h
  | cons b r ih =>
    intro n i a h
    simp only [enumFrom, List.mem_cons, Prod.mk.injEq] at h
    rcases h with ⟨rfl, rfl⟩ | h
    · refine ⟨by omega, ?_⟩
      simp
    · have h2 := ih (n + 1) i a h
      refine ⟨by omega, ?_⟩
      have hgt : i - n = (i - (n + 1)) + 1 := by omega
      rw [hgt]
      simpa using h2.2

theorem get?_some_lt : ∀ (l : List ANode) (i : Nat) (a : ANode),
    l.get? i = some a → i < l.length := by
  intro l
  induction l with
  | nil => intro i a h; simp [List.get?] at h
  | cons b r ih =>
    intro i a h
    cases i with
    | zero => simp
    | succ j =>
      simp only [List.get?] at h
      have := ih j a h
      simp
      omega

theorem get?_range' : ∀ (n k i : Nat), i < n →
    (List.range' k n).get? i = some (k + i) := by
  intro n
  induction n with
  | zero => intro k i h; omega
  | succ m ih =>
    intro k i h
    cases i with
    | zero => simp [List.range']
    | succ j =>
      have h2 := ih (k + 1) j (by omega)
      simp only [List.range', List.get?]
      rw [h2]
      congr 1
      omega

theorem range'_append_one : ∀ (m k n : Nat),
    List.range' k m ++ List.range' (k + m) n = List.range' k (m + n) := by
  intro m
  induction m with
  | zero => intro k n; simp [List.range']
  | succ j ih =>
    intro k n
    have h2 := ih (k + 1) n
    simp only [List.range', List.cons_append]
    rw [show k + (j + 1) = (k + 1) + j by omega, h2,
      show j + 1 + n = (j + n) + 1 by omega]
    rfl

theorem collectGo_length (t : CT) : ∀ lvl, (collectGo t lvl).length = ndGo t := by
  induction t with
  | file s n e r => intro lvl; simp [collectGo, ndGo]
  | dir s n lc d al ch ih => intro lvl; simp [collectGo, ndGo, ih]
  | fnil => intro lvl; simp [collectGo, ndGo]
  | fcons a b iha ihb => intro lvl; simp [collectGo, ndGo, iha, ihb]

theorem assignGo_spec (f : Nat → Option Nat) (t : CT) :
    ∀ k, dirAlGo (assignGo f t k).1 = (List.range' k (ndGo t)).map f ∧
      (assignGo f t k).2 = k + ndGo t := by
  induction t with
  | file s n e r => intro k; simp [assignGo, dirAlGo, ndGo, List.range']
  | dir s n lc d al ch ih =>
    intro k
    have h := ih (k + 1)
    constructor
    · simp only [assignGo, dirAlGo, ndGo, h.1]
      simp [List.range']
    · simp only [assignGo, ndGo, h.2]
      omega
  | fnil => intro k; simp [assignGo, dirAlGo, ndGo, List.range']
  | fcons a b iha ihb =>
    intro k
    have ha := iha k
    have hb := ihb (k + ndGo a)
    constructor
    · simp only [assignGo, dirAlGo, ndGo, ha.1, ha.2, hb.1]
      rw [← List.map_append, range'_append_one]
    · simp only [assignGo, ndGo, ha.2, hb.2]
      omega

theorem detect_get (t : CT) (i : Nat) (hi : i < ndGo t) :
    (dirAlGo (detectAliases t)).get? i
      = some (aliasOf (collectGo t 0) i) := by
  have h := assignGo_spec (aliasOf (collectGo t 0)) t 0
  unfold detectAliases
  rw [h.1, List.get?_map, get?_range' (ndGo t) 0 i hi]
  simp

/-- C1 (amended): after alias detection, in every group of directory nodes
sharing a discovery path with more than one member, exactly one member (the
one the stable sort puts first) keeps `alias_to = none` and every other
member's `alias_to` points to it; that canonical member has minimal depth in
the group, and only among members of minimal depth is a true origin (source
path equal to discovery path) preferred — a shallower redirect wins over a
deeper origin. -/
theorem c1_canonical_alias_assignment (t : CT) (p : String)
    (hb : 2 ≤ (groupOf (collectGo t 0) p).length) :
    ∃ c, pickCanon (groupOf (collectGo t 0) p) = some c ∧
      c ∈ groupOf (collectGo t 0) p ∧
      (∀ j ∈ groupOf (collectGo t 0) p,
        (dirAlGo (detectAliases t)).get? j.1 =
          some (if j.1 = c.1 then none else some c.1)) ∧
      (∀ j ∈ groupOf (collectGo t 0) p, c.2.spLen ≤ j.2.spLen) ∧
      (c.2.src = c.2.disc ∨
        ∀ j ∈ groupOf (collectGo t 0) p, j.2.spLen = c.2.spLen →
          j.2.src ≠ j.2.disc) := by
  obtain ⟨c, hc⟩ : ∃ c, pickCanon (groupOf (collectGo t 0) p) = some c := by
    cases hG : groupOf (collectGo t 0) p with
    | nil => rw [hG] at hb; simp at hb
    | cons x xs => exact ⟨_, rfl⟩
  have hspec := pickCanon_spec _ c hc
  refine ⟨c, hc, hspec.1, ?_, ?_, ?_⟩
  · intro j hj
    obtain ⟨i, a⟩ := j
    have hj2 : (i, a) ∈ (enumFrom 0 (collectGo t 0)).filter
        (fun ia => ia.2.disc == p) := hj
    have hmem := List.mem_filter.mp hj2
    have hdisc : a.disc = p := by simpa [beq_iff_eq] using hmem.2
    have hget : (collectGo t 0).get? i = some a := by
      have h2 := mem_enumFrom (collectGo t 0) 0 i a hmem.1
      simpa using h2.2
    have hlt : i < ndGo t := by
      have h3 := get?_some_lt (collectGo t 0) i a hget
      rwa [collectGo_length t 0] at h3
    rw [detect_get t i hlt]
    unfold aliasOf
    rw [hget]
    simp only [hdisc]
    have hlen : ¬ ((groupOf (collectGo t 0) p).length ≤ 1) := by omega
    simp only [hlen, if_false, hc]
    by_cases hic : i = c.1
    · have : (c.1 == i) = true := by simp [hic]
      simp [this, hic]
    · have : (c.1 == i) = false := by
        simp only [beq_eq_false_iff_ne]
        exact fun hh => hic hh.symm
      simp [this, hic]
  · intro j hj
    have hmin := hspec.2 j hj
    rw [ltKey_false_iff] at hmin
    push_neg at hmin
    simp only [akey] at hmin
    omega
  · by_cases ho : c.2.src = c.2.disc
    · exact Or.inl ho
    · right
      intro j hj hsp hcon
      have hmin := hspec.2 j hj
      rw [ltKey_false_iff] at hmin
      apply hmin
      right
      have hfc : (c.2.src == c.2.disc) = false := beq_eq_false_iff_ne.mpr ho
      have hfj : (j.2.src == j.2.disc) = true := by simp [hcon]
      constructor
      · simp [akey, hsp]
      · simp [akey, hfc, hfj]

theorem c1_canonical_alias_assignment_witness :
    2 ≤ (groupOf (collectGo w1 0) "/P").length ∧
    (∃ c, pickCanon (groupOf (collectGo w1 0) "/P") = some c ∧
      c ∈ groupOf (collectGo w1 0) "/P" ∧
      (∀ j ∈ groupOf (collectGo w1 0) "/P",
        (dirAlGo (detectAliases w1)).get? j.1 =
          some (if j.1 = c.1 then none else some c.1)) ∧
      (∀ j ∈ groupOf (collectGo w1 0) "/P", c.2.spLen ≤ j.2.spLen) ∧
      (c.2.src = c.2.disc ∨
        ∀ j ∈ groupOf (collectGo w1 0) "/P", j.2.spLen = c.2.spLen →
          j.2.src ≠ j.2.disc)) :=
  ⟨by decide, c1_canonical_alias_assignment w1 "/P" (by decide)⟩

theorem c1_claim_counterexample : ¬ c1ClaimHolds exC1 := by
  unfold c1ClaimHolds
  decide
